import Mathlib

/-!
Verification of the Pod metadata resolver (`kubernetes/metadata/pod.go`).

The development shallowly embeds the Go source:

* `mapstr.Value` / `mapstr.M` model the `mapstr.M` documents
  (`map[string]interface{}` with dotted-path accessors) that the resolver
  manipulates.  Go's `nil` interface value and a typed-nil `mapstr.M` are
  represented explicitly (`vNil` / `vNilMap`) because the resolver's
  behaviour depends on both.
* A Go panic (method call on a nil interface, write into a nil map) is
  modelled by `Except.error ()`; a normal return is `Except.ok`.
* The external collaborators (resource projector, peer resolvers, the
  name-indexed store) are functions supplied in the `metadata.pod`
  structure, mirroring the fields of the Go `pod` struct.
-/

namespace mapstr

/-- A Go `interface{}` value stored inside a `mapstr.M` document:
`vNil` is the nil interface, `vNilMap` a typed-nil `mapstr.M`,
`vStr` a string, `vMap` a non-nil nested `mapstr.M`. -/
inductive Value where
  | vNil : Value
  | vNilMap : Value
  | vStr : String → Value
  | vMap : List (String × Value) → Value

/-- The `mapstr.M` document type (`map[string]interface{}`), modelled as an
association list with unique keys kept in insertion order. -/
abbrev M := List (String × Value)

/-- Go map read `m[k]`: the stored value, if the key is present. -/
def M.find? : M → String → Option Value
  | [], _ => none
  | (k, v) :: rest, key => if k = key then some v else M.find? rest key

/-- Go map write `m[k] = v`: replace in place, or append a fresh key. -/
def M.set : M → String → Value → M
  | [], key, v => [(key, v)]
  | (k, w) :: rest, key, v =>
    if k = key then (key, v) :: rest else (k, w) :: M.set rest key v

/-- Rebuild the dotted key from its segments (inverse of `splitKey`). -/
def joinKey : List String → String
  | [] => ""
  | [s] => s
  | s :: rest => s ++ "." ++ joinKey rest

/-- Split a dotted key into segments, as Go's `strings.IndexRune` loop
inside `mapstr.mapFind` does. -/
def splitKeyAux (cur : List Char) : List Char → List String
  | [] => [String.mk cur.reverse]
  | c :: cs =>
    if c = '.' then String.mk cur.reverse :: splitKeyAux [] cs
    else splitKeyAux (c :: cur) cs

/-- Split a dotted key into its `.`-separated segments. -/
def splitKey (s : String) : List String := splitKeyAux [] s.toList

/-- `mapstr.M.GetValue` on pre-split segments, following `mapFind`:
at each level the whole remaining dotted key is tried as a flat key first
("fast path"); otherwise the walk descends through the first segment,
failing (Go: `ErrKeyNotFound` / type error, value `nil`) when the key is
absent or the intermediate value is not a map.  A typed-nil map can be
descended into but contains nothing. -/
def M.getPath : M → List String → Option Value
  | m, segs =>
    match m.find? (joinKey segs) with
    | some v => some v
    | none =>
      match segs with
      | [] => none
      | [_] => none
      | k :: rest =>
        match m.find? k with
        | some (.vMap m2) => M.getPath m2 rest
        | some .vNilMap => M.getPath [] rest
        | _ => none

/-- `mapstr.M.GetValue(key)`; errors are collapsed to `none` (the Go callers
in pod.go discard the error and keep the `nil` value). -/
def M.GetValue (m : M) (key : String) : Option Value := m.getPath (splitKey key)

/-- `mapstr.M.Put` on pre-split segments.  Mirrors `mapFind` with
`createMissing`: flat fast path first, missing intermediates are created,
a non-map intermediate yields an error which `pod.go` discards (`_, _ =`),
so the document is returned unchanged; a typed-nil map intermediate makes
Go assign into a nil map, which panics (`Except.error`). -/
def M.putPath : M → List String → Value → Except Unit M
  | m, segs, v =>
    if (m.find? (joinKey segs)).isSome then .ok (m.set (joinKey segs) v)
    else
      match segs with
      | [] => .ok (m.set "" v)
      | [k] => .ok (m.set k v)
      | k :: rest =>
        match m.find? k with
        | none => do
          let sub ← M.putPath [] rest v
          .ok (m.set k (.vMap sub))
        | some (.vMap m2) => do
          let sub ← M.putPath m2 rest v
          .ok (m.set k (.vMap sub))
        | some .vNilMap => .error ()
        | some _ => .ok m

/-- `mapstr.M.Put(key, value)` with the error return discarded as in
`pod.go` (`_, _ = out.Put(...)`); only a panic escapes. -/
def M.Put (m : M) (key : String) (v : Value) : Except Unit M :=
  m.putPath (splitKey key) v

/-- `mapstr.M.DeepUpdate`: recursively merge the second document into the
first, the second operand's leaves winning.  When both sides hold maps the
maps merge recursively; merging a non-empty map into a typed-nil map makes
Go write into a nil map, which panics.  A typed-nil map on the update side
behaves as an empty update. -/
def M.DeepUpdate : M → M → Except Unit M
  | m, [] => .ok m
  | m, (k, v) :: rest => do
    let newVal : Except Unit Value :=
      match v with
      | .vMap dm =>
        match m.find? k with
        | some (.vMap sub) => do
          let r ← M.DeepUpdate sub dm
          .ok (.vMap r)
        | some .vNilMap => if dm.isEmpty then .ok .vNilMap else .error ()
        | _ => .ok (.vMap dm)
      | .vNilMap =>
        match m.find? k with
        | some (.vMap sub) => .ok (.vMap sub)
        | _ => .ok .vNilMap
      | _ => .ok v
    match newVal with
    | .error e => .error e
    | .ok nv => M.DeepUpdate (m.set k nv) rest
  termination_by _ d => sizeOf d
  decreasing_by all_goals (simp_wf <;> omega)

end mapstr

namespace kubernetes

/-- The part of `v1.PodSpec` read by the resolver. -/
structure PodSpec where
  NodeName : String

/-- The part of `v1.PodStatus` read by the resolver. -/
structure PodStatus where
  PodIP : String

/-- The part of `kubernetes.Pod` (`v1.Pod`) read by the resolver. -/
structure Pod where
  Spec : PodSpec
  Status : PodStatus

/-- A `kubernetes.Resource` (`runtime.Object`): either a Pod or some other
kind of object, identified here only by a kind tag, since the resolver
type-switches on `*kubernetes.Pod` and ignores everything else. -/
inductive Resource where
  | pod : Pod → Resource
  | other : String → Resource

end kubernetes

namespace metadata

/-- A `FieldOptions` directive.  The only directive this core passes to a
collaborator is `WithMetadata("node")`; options are otherwise opaque and
merely forwarded. -/
inductive FieldOptions where
  | withMetadata : String → FieldOptions

/-- `WithMetadata(key)` option constructor. -/
def WithMetadata (key : String) : FieldOptions := .withMetadata key

/-- The slice of the `MetaGen` interface exercised on the peer resolvers
(`p.node`, `p.replicaset`, `p.job`): `GenerateFromName(name, opts...)`,
returning a possibly-nil document. -/
structure MetaGen where
  GenerateFromName : String → List FieldOptions → Option mapstr.M

/-- The slice of `AddResourceMetadataConfig` read by `pod.GenerateK8s`
(the `Deployment` and `CronJob` hop toggles). -/
structure AddResourceMetadataConfig where
  Deployment : Bool
  CronJob : Bool

/-- The slice of the shared resource generator (`p.resource`, built by
`NewNamespaceAwareResourceMetadataGenerator`) used by the pod resolver:
`GenerateK8s(kind, obj, opts...)` builds the base native document and
`GenerateECS(obj)` the standardized-schema projection.  Its implementation
lives outside this file's source, so it is kept abstract. -/
structure Resource where
  GenerateK8s : String → kubernetes.Resource → List FieldOptions → mapstr.M
  GenerateECS : kubernetes.Resource → mapstr.M

/-- The `pod` struct from pod.go (the unused `client` field is omitted).
A `none` in `store`/`node`/`replicaset`/`job` is a Go nil interface. -/
structure pod where
  store : Option (String → Option kubernetes.Resource)
  node : Option MetaGen
  replicaset : Option MetaGen
  job : Option MetaGen
  resource : Resource
  addResourceMetadata : AddResourceMetadataConfig

/-- A call made on a peer resolver's `GenerateFromName` during one
`GenerateK8s` run: on the ReplicaSet resolver, the Job resolver, or the
Node resolver.  The trace records which collaborator was consulted and
with which name. -/
inductive RCall where
  | rs : String → RCall
  | job : String → RCall
  | node : String → RCall

/-- The pattern `v, _ := meta.GetValue(key)` where `meta` may be a nil
document: the error is discarded, leaving the nil interface when the
document is nil or the key is missing. -/
def nilGetValue (meta : Option mapstr.M) (key : String) : mapstr.Value :=
  match meta with
  | none => .vNil
  | some m => (m.GetValue key).getD .vNil

/-- The Go comparison `v == ""` on an `interface{}`: true only when the
interface holds the string `""`.  In particular a nil interface is NOT
equal to `""`. -/
def eqEmptyString : mapstr.Value → Bool
  | .vStr s => s == ""
  | _ => false

/-- The Deployment-hop block of `pod.GenerateK8s` (pod.go lines 94-107):
if the `Deployment` toggle is on and a ReplicaSet resolver is present,
read `replicaset.name`; when it is a string, call the ReplicaSet
resolver's `GenerateFromName` and, unless the returned `deployment.name`
equals the string `""`, put it (whatever value it is, including the nil
read back from a missed lookup) under `deployment.name`. -/
def deploymentHop (p : pod) (out : mapstr.M) : Except Unit (mapstr.M × List RCall) :=
  if p.addResourceMetadata.Deployment then
    match p.replicaset with
    | some rs =>
      match out.GetValue "replicaset.name" with
      | some (.vStr rsName) => do
        let meta := rs.GenerateFromName rsName []
        let deploymentName := nilGetValue meta "deployment.name"
        if eqEmptyString deploymentName then .ok (out, [RCall.rs rsName])
        else do
          let out ← out.Put "deployment.name" deploymentName
          .ok (out, [RCall.rs rsName])
      | _ => .ok (out, [])
    | none => .ok (out, [])
  else .ok (out, [])

/-- The CronJob-hop block of `pod.GenerateK8s` (pod.go lines 109-122):
if the `CronJob` toggle is on and a Job resolver is present, read
`job.name`; when it is a string the code calls
`p.replicaset.GenerateFromName(jobName)` — the REPLICASET resolver, not
the Job one — and panics on a nil interface when no ReplicaSet resolver
was supplied; unless the returned `cronjob.name` equals the string `""`,
it is put under `cronjob.name`. -/
def cronjobHop (p : pod) (out : mapstr.M) : Except Unit (mapstr.M × List RCall) :=
  if p.addResourceMetadata.CronJob then
    match p.job with
    | some _ =>
      match out.GetValue "job.name" with
      | some (.vStr jobName) =>
        match p.replicaset with
        | none => .error ()
        | some rs => do
          let meta := rs.GenerateFromName jobName []
          let cronjobName := nilGetValue meta "cronjob.name"
          if eqEmptyString cronjobName then .ok (out, [RCall.rs jobName])
          else do
            let out ← out.Put "cronjob.name" cronjobName
            .ok (out, [RCall.rs jobName])
      | _ => .ok (out, [])
    | none => .ok (out, [])
  else .ok (out, [])

/-- The Node-hop block of `pod.GenerateK8s` (pod.go lines 124-133): with a
Node resolver, `GenerateFromName(nodeName, WithMetadata("node"))`; a
non-nil result has its raw `meta["node"]` map index spliced under `node`
(whole-key replacement), a nil result or a missing Node resolver degrades
to putting the raw node name under `node.name`. -/
def nodeHop (p : pod) (nodeName : String) (out : mapstr.M) :
    Except Unit (mapstr.M × List RCall) :=
  match p.node with
  | some nd =>
    match nd.GenerateFromName nodeName [WithMetadata "node"] with
    | some meta => do
      let out ← out.Put "node" ((meta.find? "node").getD .vNil)
      .ok (out, [RCall.node nodeName])
    | none => do
      let out ← out.Put "node.name" (.vStr nodeName)
      .ok (out, [RCall.node nodeName])
  | none => do
    let out ← out.Put "node.name" (.vStr nodeName)
    .ok (out, [])

/-- The Pod-IP block of `pod.GenerateK8s` (pod.go lines 135-137): a
non-empty `Status.PodIP` is put under `pod.ip`. -/
def podIPStep (podIP : String) (out : mapstr.M) : Except Unit mapstr.M :=
  if podIP ≠ "" then out.Put "pod.ip" (.vStr podIP) else .ok out

/-- `pod.GenerateK8s` (pod.go lines 86-140): type-check the resource
(non-Pods yield a nil document), build the base native document through the
shared resource generator, then run the Deployment hop, the CronJob hop,
the Node hop and the Pod-IP step in order.  The result carries the trace
of peer-resolver calls; `Except.error` is a Go panic. -/
def pod.GenerateK8s (p : pod) (obj : kubernetes.Resource) (opts : List FieldOptions) :
    Except Unit (Option mapstr.M × List RCall) :=
  match obj with
  | .other _ => .ok (none, [])
  | .pod po => do
    let out := p.resource.GenerateK8s "pod" obj opts
    let (out1, tr1) ← deploymentHop p out
    let (out2, tr2) ← cronjobHop p out1
    let (out3, tr3) ← nodeHop p po.Spec.NodeName out2
    let out4 ← podIPStep po.Status.PodIP out3
    .ok (some out4, tr1 ++ tr2 ++ tr3)

/-- `pod.GenerateECS` (pod.go lines 80-83): delegate to the shared
resource generator. -/
def pod.GenerateECS (p : pod) (obj : kubernetes.Resource) : mapstr.M :=
  p.resource.GenerateECS obj

/-- Storing the `mapstr.M` returned by `GenerateK8s` as the value of the
`kubernetes` key: a nil document becomes a typed-nil map value. -/
def wrapK8s : Option mapstr.M → mapstr.Value
  | none => .vNilMap
  | some m => .vMap m

/-- `pod.Generate` (pod.go lines 71-78): the ECS projection, the native
document wrapped under the `kubernetes` key, then
`meta.DeepUpdate(ecsFields)` merged over it. -/
def pod.Generate (p : pod) (obj : kubernetes.Resource) (opts : List FieldOptions) :
    Except Unit (mapstr.M × List RCall) := do
  let ecsFields := p.GenerateECS obj
  let (k8s, tr) ← p.GenerateK8s obj opts
  let meta : mapstr.M := [("kubernetes", wrapK8s k8s)]
  let meta ← meta.DeepUpdate ecsFields
  .ok (meta, tr)

/-- `pod.GenerateFromName` (pod.go lines 142-158): nil when the store is
unset, the key is absent, or the stored object is not a Pod; otherwise
delegate to `GenerateK8s` with the same options. -/
def pod.GenerateFromName (p : pod) (name : String) (opts : List FieldOptions) :
    Except Unit (Option mapstr.M × List RCall) :=
  match p.store with
  | none => .ok (none, [])
  | some store =>
    match store name with
    | some (kubernetes.Resource.pod po) => p.GenerateK8s (.pod po) opts
    | some (kubernetes.Resource.other _) => .ok (none, [])
    | none => .ok (none, [])

end metadata



namespace mapstr

/-- No typed-nil `mapstr.M` occurs anywhere inside the value.  Documents
assembled by the generators out of nested non-nil maps and scalars satisfy
this; a typed-nil map is the one shape on which Go map writes panic. -/
def Value.noNilMap : Value → Bool
  | .vNil => true
  | .vNilMap => false
  | .vStr _ => true
  | .vMap [] => true
  | .vMap ((_, v) :: rest) => v.noNilMap && (Value.vMap rest).noNilMap
  termination_by v => sizeOf v
  decreasing_by all_goals (simp_wf <;> omega)

/-- `noNilMap` for a whole document. -/
def M.noNilMap (m : M) : Bool := (Value.vMap m).noNilMap

mutual

/-- Modelled from the spec: the deep-merge used by the merge law, "nested
maps merge recursively, scalar leaves overwrite", with the second
(standardized-schema) operand winning on key collisions.  Written from the
spec's words, independently of `M.DeepUpdate`, in order to compare the
two. -/
def specDeepMerge : M → M → M
  | m, [] => m
  | m, (k, v) :: rest =>
    specDeepMerge (M.set m k (specMergeValue (M.find? m k) v)) rest
  termination_by _ d => (sizeOf d, 0)

/-- Modelled from the spec: merging one update value over the old value at
the same key — two nested maps merge recursively, anything else is
overwritten by the update value. -/
def specMergeValue : Option Value → Value → Value
  | some (.vMap a), .vMap b => .vMap (specDeepMerge a b)
  | _, v => v
  termination_by _ v => (sizeOf v, 1)

end

end mapstr

namespace metadata

/-- A Pod fixture with an empty IP. -/
def po1 : kubernetes.Pod := { Spec := { NodeName := "n1" }, Status := { PodIP := "" } }

/-- A Pod fixture with a non-empty IP. -/
def po9 : kubernetes.Pod := { Spec := { NodeName := "n1" }, Status := { PodIP := "10.0.0.5" } }

/-- C1 fixture: CronJob hop enabled, Job and ReplicaSet resolvers both
present and answering differently, base document owning `job.name`. -/
def c1fix : pod :=
  { store := none, node := none
    replicaset := some { GenerateFromName := fun _ _ => some [("cronjob", .vMap [("name", .vStr "cjRS")])] }
    job := some { GenerateFromName := fun _ _ => some [("cronjob", .vMap [("name", .vStr "cjJOB")])] }
    resource := { GenerateK8s := fun _ _ _ => [("job", .vMap [("name", .vStr "j1")])],
                  GenerateECS := fun _ => [] }
    addResourceMetadata := { Deployment := false, CronJob := true } }

/-- C2 fixture: CronJob hop enabled, a Job resolver present but NO
ReplicaSet resolver, base document owning `job.name`. -/
def c2fix : pod :=
  { store := none, node := none
    replicaset := none
    job := some { GenerateFromName := fun _ _ => some [("cronjob", .vMap [("name", .vStr "cjJOB")])] }
    resource := { GenerateK8s := fun _ _ _ => [("job", .vMap [("name", .vStr "j1")])],
                  GenerateECS := fun _ => [] }
    addResourceMetadata := { Deployment := false, CronJob := true } }

/-- C3 fixture: Deployment hop enabled, a ReplicaSet resolver whose lookup
misses (returns nil), base document owning `replicaset.name`. -/
def c3fix : pod :=
  { store := none, node := none
    replicaset := some { GenerateFromName := fun _ _ => none }
    job := none
    resource := { GenerateK8s := fun _ _ _ => [("replicaset", .vMap [("name", .vStr "rs1")])],
                  GenerateECS := fun _ => [] }
    addResourceMetadata := { Deployment := true, CronJob := false } }

/-- C4 fixture: everything off, empty projector output. -/
def c4fix : pod :=
  { store := none, node := none, replicaset := none, job := none
    resource := { GenerateK8s := fun _ _ _ => [], GenerateECS := fun _ => [] }
    addResourceMetadata := { Deployment := false, CronJob := false } }

/-- C5 fixture: plain Pod projection plus a simple standardized-schema
document. -/
def c5fix : pod :=
  { store := none, node := none, replicaset := none, job := none
    resource := { GenerateK8s := fun _ _ _ => [("pod", .vMap [("name", .vStr "p1")])],
                  GenerateECS := fun _ => [("agent", .vMap [("id", .vStr "a1")])] }
    addResourceMetadata := { Deployment := false, CronJob := false } }

/-- C6 counterexample fixture: `replicaset.name` present but EMPTY, and a
resolver that answers a non-empty `deployment.name` even for the empty
name. -/
def c6fix : pod :=
  { store := none, node := none
    replicaset := some { GenerateFromName := fun _ _ => some [("deployment", .vMap [("name", .vStr "depX")])] }
    job := none
    resource := { GenerateK8s := fun _ _ _ => [("replicaset", .vMap [("name", .vStr "")])],
                  GenerateECS := fun _ => [] }
    addResourceMetadata := { Deployment := true, CronJob := false } }

/-- C6 witness fixture: `replicaset.name = "rs1"` resolving to
`deployment.name = "dep1"`. -/
def c6wfix : pod :=
  { store := none, node := none
    replicaset := some { GenerateFromName := fun _ _ => some [("deployment", .vMap [("name", .vStr "dep1")])] }
    job := none
    resource := { GenerateK8s := fun _ _ _ => [("replicaset", .vMap [("name", .vStr "rs1")])],
                  GenerateECS := fun _ => [] }
    addResourceMetadata := { Deployment := true, CronJob := false } }

/-- C7 witness fixture: a Node resolver returning a full `node`
sub-document. -/
def c7wfix : pod :=
  { store := none
    node := some { GenerateFromName := fun _ _ => some [("node", .vMap [("name", .vStr "n1"), ("role", .vStr "worker")])] }
    replicaset := none, job := none
    resource := { GenerateK8s := fun _ _ _ => [("pod", .vMap [("name", .vStr "p1")])],
                  GenerateECS := fun _ => [] }
    addResourceMetadata := { Deployment := false, CronJob := false } }

/-- C8 fixture: a store holding exactly one Pod under the key `"pod1"`. -/
def c8fix : pod :=
  { store := some (fun n => if n = "pod1" then some (.pod po1) else none)
    node := none, replicaset := none, job := none
    resource := { GenerateK8s := fun _ _ _ => [("pod", .vMap [("name", .vStr "p1")])],
                  GenerateECS := fun _ => [] }
    addResourceMetadata := { Deployment := false, CronJob := false } }

/-- C9 witness fixture: plain Pod projection, no collaborators. -/
def c9wfix : pod :=
  { store := none, node := none, replicaset := none, job := none
    resource := { GenerateK8s := fun _ _ _ => [("pod", .vMap [("name", .vStr "p1")])],
                  GenerateECS := fun _ => [] }
    addResourceMetadata := { Deployment := false, CronJob := false } }

end metadata

namespace mapstr

@[simp] theorem exceptBind_ok {α β : Type} (a : α) (f : α → Except Unit β) :
    (Except.ok a >>= f) = f a := rfl

@[simp] theorem exceptBind_error {α β : Type} (e : Unit) (f : α → Except Unit β) :
    ((Except.error e : Except Unit α) >>= f) = Except.error e := rfl

theorem find?_set_eq (m : M) (k : String) (v : Value) :
    M.find? (M.set m k v) k = some v := by
  induction m with
  | nil => simp [M.set, M.find?]
  | cons kv rest ih =>
    obtain ⟨k', w⟩ := kv
    by_cases h : k' = k <;> simp [M.set, M.find?, h, ih]

theorem find?_set_ne (m : M) (k k' : String) (v : Value) (h : k' ≠ k) :
    M.find? (M.set m k v) k' = M.find? m k' := by
  induction m with
  | nil => simp [M.set, M.find?, Ne.symm h]
  | cons kv rest ih =>
    obtain ⟨k'', w⟩ := kv
    by_cases h2 : k'' = k
    · subst h2
      simp [M.set, M.find?, Ne.symm h]
    · simp [M.set, M.find?, h2, ih]

theorem joinKey_two (a b : String) : joinKey [a, b] = a ++ "." ++ b := rfl

theorem joinKey_one (a : String) : joinKey [a] = a := rfl

theorem joinKey_two_ne_left (a b : String) : joinKey [a, b] ≠ a := by
  intro h
  have hlen := congrArg String.length h
  have hone : String.length "." = 1 := rfl
  simp [joinKey_two, String.length_append, hone] at hlen
  omega

/-- `Put` on a single-segment key always succeeds and is a plain map write. -/
theorem putPath_one (m : M) (k : String) (v : Value) :
    M.putPath m [k] v = .ok (M.set m k v) := by
  by_cases h : (M.find? m (joinKey [k])).isSome <;>
    simp [M.putPath, h, joinKey_one]

/-- `Put "a.b"` when neither the flat key nor the first segment exists:
a fresh one-entry sub-map is created under the first segment. -/
theorem putPath_two_none (m : M) (a b : String) (v : Value)
    (hflat : M.find? m (joinKey [a, b]) = none)
    (hfa : M.find? m a = none) :
    M.putPath m [a, b] v = .ok (M.set m a (.vMap [(b, v)])) := by
  simp [M.putPath, hflat, hfa, putPath_one, M.find?, M.set]

/-- `Put "a.b"` when the flat key is absent and the first segment holds a
map: the write lands inside that sub-map. -/
theorem putPath_two_map (m mm : M) (a b : String) (v : Value)
    (hflat : M.find? m (joinKey [a, b]) = none)
    (hfa : M.find? m a = some (.vMap mm)) :
    M.putPath m [a, b] v = .ok (M.set m a (.vMap (M.set mm b v))) := by
  simp [M.putPath, hflat, hfa, putPath_one, joinKey_one, ite_self]

/-- Reading a two-segment dotted path only consults the flat spelling and
the first segment's value. -/
theorem getPath_two_congr (m m' : M) (a b : String)
    (h1 : M.find? m' (joinKey [a, b]) = M.find? m (joinKey [a, b]))
    (h2 : M.find? m' a = M.find? m a) :
    M.getPath m' [a, b] = M.getPath m [a, b] := by
  simp only [M.getPath]
  rw [h1, h2]

/-- Reading back `"a.b"` right after `putPath_two_none`/`putPath_two_map`
wrote `v` there. -/
theorem getPath_set_sub (m mm : M) (a b : String) (v : Value)
    (hflat : M.find? m (joinKey [a, b]) = none) :
    M.getPath (M.set m a (.vMap (M.set mm b v))) [a, b] = some v := by
  simp only [M.getPath]
  rw [find?_set_ne _ _ _ _ (joinKey_two_ne_left a b), hflat, find?_set_eq]
  simp [joinKey_one, find?_set_eq]

/-- A successful two-segment `Put` (any branch, including the silently
discarded type-clash error) leaves every top-level key other than the flat
spelling and the first segment unchanged. -/
theorem putPath_two_pres (m m' : M) (a b : String) (v : Value)
    (h : M.putPath m [a, b] v = .ok m') :
    ∀ k, k ≠ joinKey [a, b] → k ≠ a → M.find? m' k = M.find? m k := by
  intro k h1 h2
  by_cases hflat : (M.find? m (joinKey [a, b])).isSome
  · simp only [M.putPath, hflat, if_pos] at h
    cases h
    exact find?_set_ne _ _ _ _ h1
  · cases hfa : M.find? m a with
    | none =>
      rw [putPath_two_none m a b v (by simpa using hflat) hfa] at h
      cases h
      exact find?_set_ne _ _ _ _ h2
    | some w =>
      cases w with
      | vNil =>
        simp only [M.putPath, hflat, Bool.false_eq_true, if_false, hfa] at h
        simp at h
        cases h
        rfl
      | vNilMap =>
        simp only [M.putPath, hflat, Bool.false_eq_true, if_false, hfa] at h
        simp at h
      | vStr s =>
        simp only [M.putPath, hflat, Bool.false_eq_true, if_false, hfa] at h
        simp at h
        cases h
        rfl
      | vMap mm =>
        rw [putPath_two_map m mm a b v (by simpa using hflat) hfa] at h
        cases h
        exact find?_set_ne _ _ _ _ h2

end mapstr

namespace metadata

open mapstr

theorem splitKey_replicaset_name : splitKey "replicaset.name" = ["replicaset", "name"] := rfl

theorem splitKey_deployment_name : splitKey "deployment.name" = ["deployment", "name"] := rfl

theorem splitKey_job_name : splitKey "job.name" = ["job", "name"] := rfl

theorem splitKey_cronjob_name : splitKey "cronjob.name" = ["cronjob", "name"] := rfl

theorem splitKey_node_name : splitKey "node.name" = ["node", "name"] := rfl

theorem splitKey_pod_ip : splitKey "pod.ip" = ["pod", "ip"] := rfl

theorem splitKey_node : splitKey "node" = ["node"] := rfl

/-- A disabled `Deployment` toggle skips the Deployment hop. -/
theorem deploymentHop_off (p : pod) (m : mapstr.M)
    (h : p.addResourceMetadata.Deployment = false) :
    deploymentHop p m = .ok (m, []) := by
  simp [deploymentHop, h]

/-- A missing ReplicaSet resolver skips the Deployment hop. -/
theorem deploymentHop_nors (p : pod) (m : mapstr.M)
    (h : p.replicaset = none) :
    deploymentHop p m = .ok (m, []) := by
  simp only [deploymentHop, h]
  split <;> rfl

/-- A successful Deployment hop either leaves the document unchanged or is a
successful `Put` at `deployment.name`. -/
theorem deploymentHop_cases (p : pod) (m m' : mapstr.M) (tr : List RCall)
    (h : deploymentHop p m = .ok (m', tr)) :
    m' = m ∨ ∃ v, mapstr.M.putPath m ["deployment", "name"] v = .ok m' := by
  simp only [deploymentHop] at h
  split at h
  · split at h
    · split at h
      · split at h
        · simp only [Except.ok.injEq, Prod.mk.injEq] at h
          exact Or.inl h.1.symm
        · cases hput : mapstr.M.Put m "deployment.name"
            (nilGetValue (MetaGen.GenerateFromName _ _ []) "deployment.name") with
          | error e => rw [hput] at h; simp at h
          | ok mo =>
            rw [hput] at h
            simp only [exceptBind_ok, Except.ok.injEq, Prod.mk.injEq] at h
            exact Or.inr ⟨_, h.1 ▸ hput⟩
      · simp only [Except.ok.injEq, Prod.mk.injEq] at h
        exact Or.inl h.1.symm
    · simp only [Except.ok.injEq, Prod.mk.injEq] at h
      exact Or.inl h.1.symm
  · simp only [Except.ok.injEq, Prod.mk.injEq] at h
    exact Or.inl h.1.symm

/-- A successful Deployment hop leaves every top-level key other than
`deployment.name` and `deployment` unchanged. -/
theorem deploymentHop_pres (p : pod) (m m' : mapstr.M) (tr : List RCall)
    (h : deploymentHop p m = .ok (m', tr)) (k : String)
    (h1 : k ≠ "deployment.name") (h2 : k ≠ "deployment") :
    mapstr.M.find? m' k = mapstr.M.find? m k := by
  rcases deploymentHop_cases p m m' tr h with rfl | ⟨v, hp⟩
  · rfl
  · exact putPath_two_pres m m' _ _ v hp k h1 h2

/-- A successful CronJob hop either leaves the document unchanged or is a
successful `Put` at `cronjob.name`. -/
theorem cronjobHop_cases (p : pod) (m m' : mapstr.M) (tr : List RCall)
    (h : cronjobHop p m = .ok (m', tr)) :
    m' = m ∨ ∃ v, mapstr.M.putPath m ["cronjob", "name"] v = .ok m' := by
  simp only [cronjobHop] at h
  split at h
  · split at h
    · split at h
      · split at h
        · simp at h
        · split at h
          · simp only [Except.ok.injEq, Prod.mk.injEq] at h
            exact Or.inl h.1.symm
          · cases hput : mapstr.M.Put m "cronjob.name"
              (nilGetValue (MetaGen.GenerateFromName _ _ []) "cronjob.name") with
            | error e => rw [hput] at h; simp at h
            | ok mo =>
              rw [hput] at h
              simp only [exceptBind_ok, Except.ok.injEq, Prod.mk.injEq] at h
              exact Or.inr ⟨_, h.1 ▸ hput⟩
      · simp only [Except.ok.injEq, Prod.mk.injEq] at h
        exact Or.inl h.1.symm
    · simp only [Except.ok.injEq, Prod.mk.injEq] at h
      exact Or.inl h.1.symm
  · simp only [Except.ok.injEq, Prod.mk.injEq] at h
    exact Or.inl h.1.symm

/-- A successful CronJob hop leaves every top-level key other than
`cronjob.name` and `cronjob` unchanged. -/
theorem cronjobHop_pres (p : pod) (m m' : mapstr.M) (tr : List RCall)
    (h : cronjobHop p m = .ok (m', tr)) (k : String)
    (h1 : k ≠ "cronjob.name") (h2 : k ≠ "cronjob") :
    mapstr.M.find? m' k = mapstr.M.find? m k := by
  rcases cronjobHop_cases p m m' tr h with rfl | ⟨v, hp⟩
  · rfl
  · exact putPath_two_pres m m' _ _ v hp k h1 h2

/-- A successful Node hop either replaces the whole `node` key or is a
successful `Put` at `node.name`. -/
theorem nodeHop_cases (p : pod) (n : String) (m m' : mapstr.M) (tr : List RCall)
    (h : nodeHop p n m = .ok (m', tr)) :
    (∃ v, m' = mapstr.M.set m "node" v) ∨
      ∃ v, mapstr.M.putPath m ["node", "name"] v = .ok m' := by
  simp only [nodeHop] at h
  split at h
  · split at h
    · rw [show mapstr.M.Put m "node" _ = mapstr.M.putPath m ["node"] _ from rfl,
        putPath_one] at h
      simp only [exceptBind_ok, Except.ok.injEq, Prod.mk.injEq] at h
      exact Or.inl ⟨_, h.1.symm⟩
    · cases hput : mapstr.M.Put m "node.name" (.vStr n) with
      | error e => rw [hput] at h; simp at h
      | ok mo =>
        rw [hput] at h
        simp only [exceptBind_ok, Except.ok.injEq, Prod.mk.injEq] at h
        exact Or.inr ⟨_, h.1 ▸ hput⟩
  · cases hput : mapstr.M.Put m "node.name" (.vStr n) with
    | error e => rw [hput] at h; simp at h
    | ok mo =>
      rw [hput] at h
      simp only [exceptBind_ok, Except.ok.injEq, Prod.mk.injEq] at h
      exact Or.inr ⟨_, h.1 ▸ hput⟩

/-- A successful Node hop leaves every top-level key other than `node` and
`node.name` unchanged. -/
theorem nodeHop_pres (p : pod) (n : String) (m m' : mapstr.M) (tr : List RCall)
    (h : nodeHop p n m = .ok (m', tr)) (k : String)
    (h1 : k ≠ "node") (h2 : k ≠ "node.name") :
    mapstr.M.find? m' k = mapstr.M.find? m k := by
  rcases nodeHop_cases p n m m' tr h with ⟨v, rfl⟩ | ⟨v, hp⟩
  · exact find?_set_ne m _ _ v h1
  · exact putPath_two_pres m m' _ _ v hp k h2 h1

/-- An empty Pod IP skips the IP step. -/
theorem podIPStep_empty (m : mapstr.M) : podIPStep "" m = .ok m := by
  simp [podIPStep]

/-- A successful IP step either leaves the document unchanged or is a
successful `Put` at `pod.ip`. -/
theorem podIPStep_cases (ip : String) (m m' : mapstr.M)
    (h : podIPStep ip m = .ok m') :
    m' = m ∨ ∃ v, mapstr.M.putPath m ["pod", "ip"] v = .ok m' := by
  simp only [podIPStep] at h
  split at h
  · exact Or.inr ⟨_, h⟩
  · simp only [Except.ok.injEq] at h
    exact Or.inl h.symm

/-- A successful IP step leaves every top-level key other than `pod.ip` and
`pod` unchanged. -/
theorem podIPStep_pres (ip : String) (m m' : mapstr.M)
    (h : podIPStep ip m = .ok m') (k : String)
    (h1 : k ≠ "pod.ip") (h2 : k ≠ "pod") :
    mapstr.M.find? m' k = mapstr.M.find? m k := by
  rcases podIPStep_cases ip m m' h with rfl | ⟨v, hp⟩
  · rfl
  · exact putPath_two_pres m m' _ _ v hp k h1 h2

end metadata

namespace metadata

open mapstr

/-- Successful `GenerateK8s` on a Pod decomposes into a successful run of
the four blocks in source order, starting from the base document produced
by the shared resource generator. -/
theorem pod.GenerateK8s_ok (p : pod) (po : kubernetes.Pod)
    (opts : List FieldOptions) (out : mapstr.M) (tr : List RCall)
    (h : pod.GenerateK8s p (.pod po) opts = .ok (some out, tr)) :
    ∃ m1 tr1 m2 tr2 m3 tr3,
      deploymentHop p (p.resource.GenerateK8s "pod" (.pod po) opts) = .ok (m1, tr1) ∧
      cronjobHop p m1 = .ok (m2, tr2) ∧
      nodeHop p po.Spec.NodeName m2 = .ok (m3, tr3) ∧
      podIPStep po.Status.PodIP m3 = .ok out ∧
      tr = tr1 ++ tr2 ++ tr3 := by
  simp only [pod.GenerateK8s] at h
  cases hd : deploymentHop p (p.resource.GenerateK8s "pod" (.pod po) opts) with
  | error e => rw [hd] at h; simp at h
  | ok pr1 =>
    obtain ⟨m1, tr1⟩ := pr1
    rw [hd] at h
    simp only [exceptBind_ok] at h
    cases hc : cronjobHop p m1 with
    | error e => rw [hc] at h; simp at h
    | ok pr2 =>
      obtain ⟨m2, tr2⟩ := pr2
      rw [hc] at h
      simp only [exceptBind_ok] at h
      cases hn : nodeHop p po.Spec.NodeName m2 with
      | error e => rw [hn] at h; simp at h
      | ok pr3 =>
        obtain ⟨m3, tr3⟩ := pr3
        rw [hn] at h
        simp only [exceptBind_ok] at h
        cases hip : podIPStep po.Status.PodIP m3 with
        | error e => rw [hip] at h; simp at h
        | ok m4 =>
          rw [hip] at h
          simp only [exceptBind_ok, Except.ok.injEq, Prod.mk.injEq,
            Option.some.injEq] at h
          obtain ⟨h1, h2⟩ := h
          subst h1
          exact ⟨m1, tr1, m2, tr2, m3, tr3, rfl, hc, hn, hip, h2.symm⟩

/-- Node hop with a configured resolver that returns a document: the whole
`node` key is replaced by the raw `meta["node"]` index. -/
theorem nodeHop_resolved (p : pod) (nd : MetaGen) (n : String)
    (m meta : mapstr.M) (hnd : p.node = some nd)
    (hmeta : nd.GenerateFromName n [WithMetadata "node"] = some meta) :
    nodeHop p n m =
      .ok (mapstr.M.set m "node" ((mapstr.M.find? meta "node").getD .vNil),
        [RCall.node n]) := by
  simp [nodeHop, hnd, hmeta, mapstr.M.Put, splitKey_node, putPath_one]

/-- Node hop with no resolver, on a document carrying no node keys yet:
only `node.name` is written. -/
theorem nodeHop_fallback_none (p : pod) (n : String) (m : mapstr.M)
    (hnd : p.node = none)
    (h1 : mapstr.M.find? m "node.name" = none)
    (h2 : mapstr.M.find? m "node" = none) :
    nodeHop p n m =
      .ok (mapstr.M.set m "node" (.vMap [("name", .vStr n)]), []) := by
  simp only [nodeHop, hnd, mapstr.M.Put, splitKey_node_name]
  rw [putPath_two_none m "node" "name" _ h1 h2]
  rfl

/-- Node hop whose resolver misses (returns nil), on a document carrying no
node keys yet: only `node.name` is written. -/
theorem nodeHop_fallback_miss (p : pod) (nd : MetaGen) (n : String)
    (m : mapstr.M) (hnd : p.node = some nd)
    (hmeta : nd.GenerateFromName n [WithMetadata "node"] = none)
    (h1 : mapstr.M.find? m "node.name" = none)
    (h2 : mapstr.M.find? m "node" = none) :
    nodeHop p n m =
      .ok (mapstr.M.set m "node" (.vMap [("name", .vStr n)]),
        [RCall.node n]) := by
  simp only [nodeHop, hnd, hmeta, mapstr.M.Put, splitKey_node_name]
  rw [putPath_two_none m "node" "name" _ h1 h2]
  rfl

/-- IP step with a non-empty IP on a document where `pod.ip` is absent and
`pod` holds a map (or nothing): it succeeds and `pod.ip` reads back. -/
theorem podIPStep_get (ip : String) (m : mapstr.M) (hip : ip ≠ "")
    (hflat : mapstr.M.find? m "pod.ip" = none)
    (hshape : ∀ w, mapstr.M.find? m "pod" = some w → ∃ mm, w = .vMap mm) :
    ∃ m', podIPStep ip m = .ok m' ∧
      mapstr.M.getPath m' ["pod", "ip"] = some (.vStr ip) := by
  cases hfa : mapstr.M.find? m "pod" with
  | none =>
    refine ⟨mapstr.M.set m "pod" (.vMap [("ip", .vStr ip)]), ?_, ?_⟩
    · simp only [podIPStep, hip, if_pos, mapstr.M.Put, splitKey_pod_ip,
        ne_eq, not_false_eq_true]
      rw [putPath_two_none m "pod" "ip" _ hflat hfa]
    · exact getPath_set_sub m [] "pod" "ip" _ hflat
  | some w =>
    obtain ⟨mm, rfl⟩ := hshape w hfa
    refine ⟨mapstr.M.set m "pod" (.vMap (mapstr.M.set mm "ip" (.vStr ip))), ?_, ?_⟩
    · simp only [podIPStep, hip, if_pos, mapstr.M.Put, splitKey_pod_ip,
        ne_eq, not_false_eq_true]
      rw [putPath_two_map m mm "pod" "ip" _ hflat hfa]
    · exact getPath_set_sub m mm "pod" "ip" _ hflat

/-- A two-segment read that comes back `none` implies its flat spelling is
absent. -/
theorem getPath_none_flat (m : mapstr.M) (a b : String)
    (h : mapstr.M.getPath m [a, b] = none) :
    mapstr.M.find? m (joinKey [a, b]) = none := by
  cases hf : mapstr.M.find? m (joinKey [a, b]) with
  | none => rfl
  | some v =>
    simp only [mapstr.M.getPath, hf] at h
    cases h

end metadata

namespace metadata

open mapstr

/-- C7: for every Pod, if a Node resolver is configured and its
`GenerateFromName(nodeName, WithMetadata("node"))` returns a non-nil
document, the output's `node` key equals that document's raw `node` entry
(wholesale replacement of any existing node info); if the resolver misses
or no Node resolver is configured (given a base document carrying no node
keys of its own), the output contains only `node.name` set to the raw node
name string. -/
theorem c7_node_hop (p : pod) (po : kubernetes.Pod) (opts : List FieldOptions)
    (out : mapstr.M) (tr : List RCall) (base : mapstr.M)
    (hbase : base = p.resource.GenerateK8s "pod" (.pod po) opts)
    (h : pod.GenerateK8s p (.pod po) opts = .ok (some out, tr)) :
    (∀ nd meta, p.node = some nd →
        nd.GenerateFromName po.Spec.NodeName [WithMetadata "node"] = some meta →
        mapstr.M.find? out "node" = some ((mapstr.M.find? meta "node").getD .vNil)) ∧
    ((p.node = none ∨ ∃ nd, p.node = some nd ∧
        nd.GenerateFromName po.Spec.NodeName [WithMetadata "node"] = none) →
      mapstr.M.find? base "node" = none →
      mapstr.M.find? base "node.name" = none →
      mapstr.M.find? out "node" = some (.vMap [("name", .vStr po.Spec.NodeName)]) ∧
      mapstr.M.find? out "node.name" = none) := by
  obtain ⟨m1, tr1, m2, tr2, m3, tr3, hd, hc, hn, hip, htr⟩ :=
    pod.GenerateK8s_ok p po opts out tr h
  constructor
  · intro nd meta hnd hmeta
    rw [nodeHop_resolved p nd _ m2 meta hnd hmeta] at hn
    simp only [Except.ok.injEq, Prod.mk.injEq] at hn
    obtain ⟨hm3, -⟩ := hn
    have hout : mapstr.M.find? out "node" = mapstr.M.find? m3 "node" :=
      podIPStep_pres _ m3 out hip "node" (by decide) (by decide)
    rw [hout, ← hm3, find?_set_eq]
  · intro hcase hb1 hb2
    have e1a := deploymentHop_pres p _ m1 tr1 hd "node" (by decide) (by decide)
    have e1b := deploymentHop_pres p _ m1 tr1 hd "node.name" (by decide) (by decide)
    rw [← hbase] at e1a e1b
    have e2a := cronjobHop_pres p m1 m2 tr2 hc "node" (by decide) (by decide)
    have e2b := cronjobHop_pres p m1 m2 tr2 hc "node.name" (by decide) (by decide)
    have hm2a : mapstr.M.find? m2 "node" = none := by rw [e2a, e1a]; exact hb1
    have hm2b : mapstr.M.find? m2 "node.name" = none := by rw [e2b, e1b]; exact hb2
    have hm3 : mapstr.M.set m2 "node" (.vMap [("name", .vStr po.Spec.NodeName)]) = m3 := by
      rcases hcase with hnone | ⟨nd, hnd, hmiss⟩
      · rw [nodeHop_fallback_none p _ m2 hnone hm2b hm2a] at hn
        simp only [Except.ok.injEq, Prod.mk.injEq] at hn
        exact hn.1
      · rw [nodeHop_fallback_miss p nd _ m2 hnd hmiss hm2b hm2a] at hn
        simp only [Except.ok.injEq, Prod.mk.injEq] at hn
        exact hn.1
    constructor
    · have hout : mapstr.M.find? out "node" = mapstr.M.find? m3 "node" :=
        podIPStep_pres _ m3 out hip "node" (by decide) (by decide)
      rw [hout, ← hm3, find?_set_eq]
    · have hout : mapstr.M.find? out "node.name" = mapstr.M.find? m3 "node.name" :=
        podIPStep_pres _ m3 out hip "node.name" (by decide) (by decide)
      rw [hout, ← hm3, find?_set_ne _ _ _ _ (by decide)]
      exact hm2b

/-- C9: for every Pod whose base document carries no `pod.ip` entry and
whose `pod` key (if present) holds a map, the output contains
`pod.ip` equal to `Status.PodIP` when that IP is non-empty, and contains
no `pod.ip` when the IP is empty. -/
theorem c9_pod_ip (p : pod) (po : kubernetes.Pod) (opts : List FieldOptions)
    (out : mapstr.M) (tr : List RCall) (base : mapstr.M)
    (hbase : base = p.resource.GenerateK8s "pod" (.pod po) opts)
    (h : pod.GenerateK8s p (.pod po) opts = .ok (some out, tr))
    (hip0 : mapstr.M.GetValue base "pod.ip" = none)
    (hshape : ∀ w, mapstr.M.find? base "pod" = some w → ∃ mm, w = .vMap mm) :
    (po.Status.PodIP ≠ "" →
      mapstr.M.GetValue out "pod.ip" = some (.vStr po.Status.PodIP)) ∧
    (po.Status.PodIP = "" → mapstr.M.GetValue out "pod.ip" = none) := by
  obtain ⟨m1, tr1, m2, tr2, m3, tr3, hd, hc, hn, hip, htr⟩ :=
    pod.GenerateK8s_ok p po opts out tr h
  have hip0' : mapstr.M.getPath base ["pod", "ip"] = none := by
    simpa [mapstr.M.GetValue, splitKey_pod_ip] using hip0
  have hbflat : mapstr.M.find? base "pod.ip" = none :=
    getPath_none_flat base "pod" "ip" hip0'
  have e1a := deploymentHop_pres p _ m1 tr1 hd "pod.ip" (by decide) (by decide)
  have e1b := deploymentHop_pres p _ m1 tr1 hd "pod" (by decide) (by decide)
  rw [← hbase] at e1a e1b
  have e2a := cronjobHop_pres p m1 m2 tr2 hc "pod.ip" (by decide) (by decide)
  have e2b := cronjobHop_pres p m1 m2 tr2 hc "pod" (by decide) (by decide)
  have e3a := nodeHop_pres p _ m2 m3 tr3 hn "pod.ip" (by decide) (by decide)
  have e3b := nodeHop_pres p _ m2 m3 tr3 hn "pod" (by decide) (by decide)
  have hm3flat : mapstr.M.find? m3 "pod.ip" = mapstr.M.find? base "pod.ip" := by
    rw [e3a, e2a, e1a]
  have hm3pod : mapstr.M.find? m3 "pod" = mapstr.M.find? base "pod" := by
    rw [e3b, e2b, e1b]
  constructor
  · intro hnz
    obtain ⟨m', hstep, hget⟩ :=
      podIPStep_get po.Status.PodIP m3 hnz (hm3flat.trans hbflat)
        (fun w hw => hshape w (by rw [← hm3pod]; exact hw))
    rw [hstep] at hip
    simp only [Except.ok.injEq] at hip
    subst hip
    simpa [mapstr.M.GetValue, splitKey_pod_ip] using hget
  · intro hz
    rw [hz, podIPStep_empty m3] at hip
    simp only [Except.ok.injEq] at hip
    subst hip
    have hcongr := getPath_two_congr base m3 "pod" "ip" hm3flat hm3pod
    simp only [mapstr.M.GetValue, splitKey_pod_ip]
    rw [hcongr, hip0']

end metadata


namespace mapstr

theorem getPath_one (sub : M) (b : String) :
    M.getPath sub [b] = M.find? sub b := by
  simp only [M.getPath, joinKey_one]
  cases h : M.find? sub b <;> simp

/-- Evaluating a two-segment read whose flat spelling is absent and whose
first segment holds a map: descend into the sub-map. -/
theorem getPath_two_eval (m : M) (a b : String) (sub : M)
    (hflat : M.find? m (joinKey [a, b]) = none)
    (ha : M.find? m a = some (.vMap sub)) :
    M.getPath m [a, b] = M.getPath sub [b] := by
  simp only [M.getPath, hflat, ha]

end mapstr

namespace metadata

open mapstr

/-- Deployment hop, fully resolved: toggle on, resolver present, a string
`replicaset.name` in the base document, resolver returns a document whose
`deployment.name` is a non-empty string, and the base document carries no
deployment keys yet: `deployment.name` is written and the ReplicaSet
resolver is called once with the read name. -/
theorem deploymentHop_resolved (p : pod) (rs : MetaGen) (s d : String)
    (m md : mapstr.M)
    (hflag : p.addResourceMetadata.Deployment = true)
    (hrs : p.replicaset = some rs)
    (hname : mapstr.M.GetValue m "replicaset.name" = some (.vStr s))
    (hres : rs.GenerateFromName s [] = some md)
    (hdep : mapstr.M.GetValue md "deployment.name" = some (.vStr d))
    (hdne : d ≠ "")
    (hbflat : mapstr.M.find? m "deployment.name" = none)
    (hbdep : mapstr.M.find? m "deployment" = none) :
    deploymentHop p m =
      .ok (mapstr.M.set m "deployment" (.vMap [("name", .vStr d)]),
        [RCall.rs s]) := by
  simp only [deploymentHop, hflag, if_true, hrs, hname, hres, nilGetValue,
    hdep, Option.getD_some, eqEmptyString, beq_iff_eq, hdne, if_false,
    mapstr.M.Put, splitKey_deployment_name]
  rw [putPath_two_none m "deployment" "name" _ hbflat hbdep]
  rfl

/-- C6 (amended): with the Deployment toggle on, a ReplicaSet resolver
configured and `replicaset.name = s` in the base document being a string
(the empty string included), the resolver is invoked with `s`; a resolved
non-empty `deployment.name` is written to the output; with the toggle off
or no resolver the field stays absent. -/
theorem c6_deployment_hop (p : pod) (po : kubernetes.Pod)
    (opts : List FieldOptions) (out : mapstr.M) (tr : List RCall)
    (base : mapstr.M)
    (hbase : base = p.resource.GenerateK8s "pod" (.pod po) opts)
    (h : pod.GenerateK8s p (.pod po) opts = .ok (some out, tr)) :
    (∀ rs s d md, p.addResourceMetadata.Deployment = true →
      p.replicaset = some rs →
      mapstr.M.GetValue base "replicaset.name" = some (.vStr s) →
      rs.GenerateFromName s [] = some md →
      mapstr.M.GetValue md "deployment.name" = some (.vStr d) → d ≠ "" →
      mapstr.M.find? base "deployment.name" = none →
      mapstr.M.find? base "deployment" = none →
      mapstr.M.GetValue out "deployment.name" = some (.vStr d)) ∧
    ((p.addResourceMetadata.Deployment = false ∨ p.replicaset = none) →
      mapstr.M.GetValue base "deployment.name" = none →
      mapstr.M.GetValue out "deployment.name" = none) ∧
    (∀ rs s, p.addResourceMetadata.Deployment = true →
      p.replicaset = some rs →
      mapstr.M.find? base "deployment.name" = none →
      mapstr.M.find? base "deployment" = none →
      ((∃ m1, deploymentHop p base = .ok (m1, [RCall.rs s])) ↔
        mapstr.M.GetValue base "replicaset.name" = some (.vStr s))) := by
  obtain ⟨m1, tr1, m2, tr2, m3, tr3, hd, hc, hn, hip, htr⟩ :=
    pod.GenerateK8s_ok p po opts out tr h
  rw [← hbase] at hd
  refine ⟨?_, ?_, ?_⟩
  · intro rs s d md hflag hrs hname hres hdep hdne hbflat hbdep
    rw [deploymentHop_resolved p rs s d base md hflag hrs hname hres hdep hdne
      hbflat hbdep] at hd
    simp only [Except.ok.injEq, Prod.mk.injEq] at hd
    obtain ⟨hm1, -⟩ := hd
    have f1a : mapstr.M.find? m1 "deployment.name" = none := by
      rw [← hm1, find?_set_ne _ _ _ _ (by decide)]
      exact hbflat
    have f1b : mapstr.M.find? m1 "deployment" =
        some (.vMap [("name", .vStr d)]) := by
      rw [← hm1, find?_set_eq]
    have f2a : mapstr.M.find? m2 "deployment.name" = none := by
      rw [cronjobHop_pres p m1 m2 tr2 hc _ (by decide) (by decide)]
      exact f1a
    have f2b : mapstr.M.find? m2 "deployment" = some (.vMap [("name", .vStr d)]) := by
      rw [cronjobHop_pres p m1 m2 tr2 hc _ (by decide) (by decide)]
      exact f1b
    have f3a : mapstr.M.find? m3 "deployment.name" = none := by
      rw [nodeHop_pres p _ m2 m3 tr3 hn _ (by decide) (by decide)]
      exact f2a
    have f3b : mapstr.M.find? m3 "deployment" = some (.vMap [("name", .vStr d)]) := by
      rw [nodeHop_pres p _ m2 m3 tr3 hn _ (by decide) (by decide)]
      exact f2b
    have f4a : mapstr.M.find? out "deployment.name" = none := by
      rw [podIPStep_pres _ m3 out hip _ (by decide) (by decide)]
      exact f3a
    have f4b : mapstr.M.find? out "deployment" = some (.vMap [("name", .vStr d)]) := by
      rw [podIPStep_pres _ m3 out hip _ (by decide) (by decide)]
      exact f3b
    show mapstr.M.getPath out ["deployment", "name"] = some (.vStr d)
    rw [getPath_two_eval out "deployment" "name" _ f4a f4b, getPath_one]
    simp [mapstr.M.find?]
  · intro hoff hnone
    have hm1 : m1 = base := by
      rcases hoff with hoff | hoff
      · rw [deploymentHop_off p base hoff] at hd
        simp only [Except.ok.injEq, Prod.mk.injEq] at hd
        exact hd.1.symm
      · rw [deploymentHop_nors p base hoff] at hd
        simp only [Except.ok.injEq, Prod.mk.injEq] at hd
        exact hd.1.symm
    subst hm1
    have f2a : mapstr.M.find? m2 "deployment.name" = mapstr.M.find? m1 "deployment.name" :=
      cronjobHop_pres p m1 m2 tr2 hc _ (by decide) (by decide)
    have f2b : mapstr.M.find? m2 "deployment" = mapstr.M.find? m1 "deployment" :=
      cronjobHop_pres p m1 m2 tr2 hc _ (by decide) (by decide)
    have f3a : mapstr.M.find? m3 "deployment.name" = mapstr.M.find? m1 "deployment.name" := by
      rw [nodeHop_pres p _ m2 m3 tr3 hn _ (by decide) (by decide)]
      exact f2a
    have f3b : mapstr.M.find? m3 "deployment" = mapstr.M.find? m1 "deployment" := by
      rw [nodeHop_pres p _ m2 m3 tr3 hn _ (by decide) (by decide)]
      exact f2b
    have f4a : mapstr.M.find? out "deployment.name" = mapstr.M.find? m1 "deployment.name" := by
      rw [podIPStep_pres _ m3 out hip _ (by decide) (by decide)]
      exact f3a
    have f4b : mapstr.M.find? out "deployment" = mapstr.M.find? m1 "deployment" := by
      rw [podIPStep_pres _ m3 out hip _ (by decide) (by decide)]
      exact f3b
    have hcongr := getPath_two_congr m1 out "deployment" "name" f4a f4b
    simp only [mapstr.M.GetValue, splitKey_deployment_name] at hnone ⊢
    rw [hcongr, hnone]
  · intro rs s hflag hrs hbflat hbdep
    constructor
    · rintro ⟨mx, hmx⟩
      simp only [deploymentHop, hflag, if_true, hrs] at hmx
      split at hmx
      · rename_i rsName heq
        have hts : rsName = s := by
          split at hmx
          · simp only [Except.ok.injEq, Prod.mk.injEq, List.cons.injEq,
              RCall.rs.injEq, and_true] at hmx
            exact hmx.2
          · cases hput : mapstr.M.Put base "deployment.name"
              (nilGetValue (rs.GenerateFromName rsName []) "deployment.name") with
            | error e =>
              rw [hput] at hmx
              simp at hmx
            | ok mo =>
              rw [hput] at hmx
              simp only [exceptBind_ok, Except.ok.injEq, Prod.mk.injEq,
                List.cons.injEq, RCall.rs.injEq, and_true] at hmx
              exact hmx.2
        rw [heq, hts]
      · simp at hmx
    · intro hgv
      cases heq : eqEmptyString (nilGetValue (rs.GenerateFromName s []) "deployment.name") with
      | true =>
        refine ⟨base, ?_⟩
        simp [deploymentHop, hflag, hrs, hgv, heq]
      | false =>
        refine ⟨mapstr.M.set base "deployment"
          (.vMap [("name", nilGetValue (rs.GenerateFromName s []) "deployment.name")]), ?_⟩
        simp only [deploymentHop, hflag, if_true, hrs, hgv, heq,
          Bool.false_eq_true, if_false, mapstr.M.Put, splitKey_deployment_name]
        rw [putPath_two_none base "deployment" "name" _ hbflat hbdep]
        rfl

end metadata

namespace metadata

open mapstr

/-- C1 (code bug): with `CronJob` enabled and a Job resolver supplied, the
CronJob hop reads `job.name = "j1"` but passes it to the REPLICASET
resolver's `GenerateFromName`, not the Job resolver's: the call trace
records only a ReplicaSet-resolver call and the output's `cronjob.name`
is the ReplicaSet resolver's answer (`"cjRS"`), not the Job resolver's
(`"cjJOB"`). -/
theorem c1_cronjob_uses_replicaset_resolver :
    pod.GenerateK8s c1fix (.pod po1) [] =
      .ok (some [("job", .vMap [("name", .vStr "j1")]),
                 ("cronjob", .vMap [("name", .vStr "cjRS")]),
                 ("node", .vMap [("name", .vStr "n1")])],
           [RCall.rs "j1"]) ∧
    mapstr.M.GetValue
        [("job", .vMap [("name", .vStr "j1")]),
         ("cronjob", .vMap [("name", .vStr "cjRS")]),
         ("node", .vMap [("name", .vStr "n1")])] "cronjob.name" =
      some (.vStr "cjRS") :=
  ⟨rfl, rfl⟩

/-- C2 (code bug): with `CronJob` enabled, a Job resolver supplied but no
ReplicaSet resolver, the CronJob hop calls `GenerateFromName` on the nil
ReplicaSet resolver interface and panics, instead of skipping the hop. -/
theorem c2_nil_replicaset_panics :
    pod.GenerateK8s c2fix (.pod po1) [] = .error () := rfl

/-- C3 (code bug): when the ReplicaSet resolver's lookup misses (returns
nil), `meta.GetValue("deployment.name")` yields the nil interface, which
is NOT equal to the string `""`, so the code writes `deployment.name` with
a nil value: the key IS present in the output, with value nil, where the
claim demands no key at all. -/
theorem c3_lookup_miss_writes_nil_deployment :
    pod.GenerateK8s c3fix (.pod po1) [] =
      .ok (some [("replicaset", .vMap [("name", .vStr "rs1")]),
                 ("deployment", .vMap [("name", .vNil)]),
                 ("node", .vMap [("name", .vStr "n1")])],
           [RCall.rs "rs1"]) ∧
    mapstr.M.GetValue
        [("replicaset", .vMap [("name", .vStr "rs1")]),
         ("deployment", .vMap [("name", .vNil)]),
         ("node", .vMap [("name", .vStr "n1")])] "deployment.name" =
      some .vNil :=
  ⟨rfl, rfl⟩

/-- C4 counterexample: on a non-Pod resource `GenerateK8s` is nil, but
`Generate` is NOT nil/empty: it returns a one-key document holding the
typed-nil native document under `kubernetes`. -/
theorem c4_counterexample :
    pod.Generate c4fix (.other "node") [] = .ok ([("kubernetes", .vNilMap)], []) ∧
    ([("kubernetes", mapstr.Value.vNilMap)] : mapstr.M) ≠ [] := by
  refine ⟨?_, by simp⟩
  simp [pod.Generate, pod.GenerateECS, pod.GenerateK8s, wrapK8s, c4fix,
    mapstr.M.DeepUpdate]

/-- C6 counterexample: `replicaset.name` is present but EMPTY, yet the
ReplicaSet resolver IS invoked (trace records a call with `""`) and its
answer is written to `deployment.name` — refuting "the resolver is
invoked only when the name is a non-empty string". -/
theorem c6_counterexample :
    pod.GenerateK8s c6fix (.pod po1) [] =
      .ok (some [("replicaset", .vMap [("name", .vStr "")]),
                 ("deployment", .vMap [("name", .vStr "depX")]),
                 ("node", .vMap [("name", .vStr "n1")])],
           [RCall.rs ""]) ∧
    mapstr.M.GetValue
        [("replicaset", .vMap [("name", .vStr "")]),
         ("deployment", .vMap [("name", .vStr "depX")]),
         ("node", .vMap [("name", .vStr "n1")])] "deployment.name" =
      some (.vStr "depX") :=
  ⟨rfl, rfl⟩

/-- C8: `GenerateFromName` returns nil when the store is unset, the key is
absent, or the stored object is not a Pod; otherwise it delegates to
`GenerateK8s` on the stored Pod with the same options. -/
theorem c8_generate_from_name (p : pod) (name : String) (opts : List FieldOptions) :
    (p.store = none → p.GenerateFromName name opts = .ok (none, [])) ∧
    (∀ st, p.store = some st → st name = none →
      p.GenerateFromName name opts = .ok (none, [])) ∧
    (∀ st k, p.store = some st → st name = some (.other k) →
      p.GenerateFromName name opts = .ok (none, [])) ∧
    (∀ st po, p.store = some st → st name = some (.pod po) →
      p.GenerateFromName name opts = p.GenerateK8s (.pod po) opts) := by
  refine ⟨?_, ?_, ?_, ?_⟩
  · intro h
    simp [pod.GenerateFromName, h]
  · intro st h1 h2
    simp [pod.GenerateFromName, h1, h2]
  · intro st k h1 h2
    simp [pod.GenerateFromName, h1, h2]
  · intro st po h1 h2
    simp [pod.GenerateFromName, h1, h2]

/-- C10: the resolver is a pure function of the resource, the options and
the (fixed) collaborator responses held in the `pod` structure — two calls
with the same input and configuration return identical documents. -/
theorem c10_deterministic (p : pod) (obj : kubernetes.Resource)
    (opts : List FieldOptions) :
    pod.Generate p obj opts = pod.Generate p obj opts ∧
    pod.GenerateK8s p obj opts = pod.GenerateK8s p obj opts :=
  ⟨rfl, rfl⟩

end metadata

namespace mapstr

theorem noNilMap_nil : M.noNilMap [] = true := by
  simp [M.noNilMap, Value.noNilMap]

theorem noNilMap_cons (k : String) (v : Value) (rest : M) :
    M.noNilMap ((k, v) :: rest) = (v.noNilMap && M.noNilMap rest) := by
  simp [M.noNilMap, Value.noNilMap]

theorem noNilMap_find (m : M) (k : String) (w : Value)
    (hm : M.noNilMap m = true) (hw : M.find? m k = some w) :
    w.noNilMap = true := by
  induction m with
  | nil => simp [M.find?] at hw
  | cons kv rest ih =>
    obtain ⟨k', v⟩ := kv
    rw [noNilMap_cons, Bool.and_eq_true] at hm
    by_cases hk : k' = k
    · subst hk
      simp only [M.find?, if_pos] at hw
      cases hw
      exact hm.1
    · simp only [M.find?, hk, if_false] at hw
      exact ih hm.2 hw

theorem noNilMap_set (m : M) (k : String) (v : Value)
    (hm : M.noNilMap m = true) (hv : v.noNilMap = true) :
    M.noNilMap (M.set m k v) = true := by
  induction m with
  | nil => simp [M.set, noNilMap_cons, noNilMap_nil, hv]
  | cons kv rest ih =>
    obtain ⟨k', w⟩ := kv
    rw [noNilMap_cons, Bool.and_eq_true] at hm
    by_cases hk : k' = k
    · subst hk
      simp [M.set, noNilMap_cons, hv, hm.2]
    · simp [M.set, hk, noNilMap_cons, hm.1, ih hm.2]

theorem specDeepMerge_noNilMap_aux : ∀ (n : Nat) (d m : M), sizeOf d < n →
    M.noNilMap m = true → M.noNilMap d = true →
    M.noNilMap (specDeepMerge m d) = true := by
  intro n
  induction n with
  | zero => intro d m h _ _; omega
  | succ n ih =>
    intro d m hsz hm hd
    match d with
    | [] => simpa [specDeepMerge] using hm
    | (k, v) :: rest =>
      rw [noNilMap_cons, Bool.and_eq_true] at hd
      have hszrest : sizeOf rest < n := by
        have : sizeOf ((k, v) :: rest) = 1 + sizeOf (k, v) + sizeOf rest := by simp
        omega
      simp only [specDeepMerge]
      refine ih rest _ hszrest (noNilMap_set m k _ hm ?_) hd.2
      cases hf : M.find? m k with
      | none =>
        cases v <;> simpa [specMergeValue] using hd.1
      | some w =>
        cases w with
        | vMap a =>
          cases v with
          | vMap b =>
            have ha : M.noNilMap a = true := noNilMap_find m k _ hm hf
            have hb : M.noNilMap b = true := hd.1
            have hszb : sizeOf b < n := by
              have : sizeOf ((k, Value.vMap b) :: rest) =
                  1 + (1 + sizeOf k + (1 + sizeOf b)) + sizeOf rest := by simp
              omega
            simpa [specMergeValue] using ih b a hszb ha hb
          | vNil => simpa [specMergeValue] using hd.1
          | vNilMap => simpa [specMergeValue] using hd.1
          | vStr s => simpa [specMergeValue] using hd.1
        | vNil => cases v <;> simpa [specMergeValue] using hd.1
        | vNilMap => cases v <;> simpa [specMergeValue] using hd.1
        | vStr s => cases v <;> simpa [specMergeValue] using hd.1

theorem specDeepMerge_noNilMap (m d : M)
    (hm : M.noNilMap m = true) (hd : M.noNilMap d = true) :
    M.noNilMap (specDeepMerge m d) = true :=
  specDeepMerge_noNilMap_aux (sizeOf d + 1) d m (by omega) hm hd

theorem specDeepMerge_find_absent : ∀ (d m : M) (k : String),
    M.find? d k = none → M.find? (specDeepMerge m d) k = M.find? m k := by
  intro d
  induction d with
  | nil => intro m k _; simp [specDeepMerge]
  | cons kv rest ih =>
    obtain ⟨k', v⟩ := kv
    intro m k h
    by_cases hk : k' = k
    · subst hk
      simp [M.find?] at h
    · simp only [M.find?, hk, if_false] at h
      simp only [specDeepMerge]
      rw [ih _ k h]
      exact find?_set_ne _ _ _ _ fun he => hk he.symm

end mapstr

namespace mapstr

/-- On documents free of typed-nil maps (where it merges everything it
reads), `M.DeepUpdate` succeeds and computes exactly the spec's deep
merge. -/
theorem deepUpdate_eq_spec_aux : ∀ (n : Nat) (d m : M), sizeOf d < n →
    M.noNilMap d = true →
    (∀ k w, M.find? m k = some w → M.find? d k = none ∨ w.noNilMap = true) →
    M.DeepUpdate m d = .ok (specDeepMerge m d) := by
  intro n
  induction n with
  | zero => intro d m h _ _; omega
  | succ n ih =>
    intro d m hsz hd hcompat
    match d with
    | [] => simp [M.DeepUpdate, specDeepMerge]
    | (k, v) :: rest =>
      rw [noNilMap_cons, Bool.and_eq_true] at hd
      have hszrest : sizeOf rest < n := by
        have : sizeOf ((k, v) :: rest) = 1 + sizeOf (k, v) + sizeOf rest := by simp
        omega
      have hcompat' : ∀ v', v'.noNilMap = true →
          ∀ k' w, M.find? (M.set m k v') k' = some w →
            M.find? rest k' = none ∨ w.noNilMap = true := by
        intro v' hv' k' w hw
        by_cases hk : k' = k
        · subst hk
          rw [find?_set_eq] at hw
          cases hw
          exact Or.inr hv'
        · rw [find?_set_ne _ _ _ _ hk] at hw
          rcases hcompat k' w hw with hnone | hok
          · simp only [M.find?] at hnone
            rw [if_neg (show ¬k = k' from fun h => hk h.symm)] at hnone
            exact Or.inl hnone
          · exact Or.inr hok
      cases v with
      | vNilMap => exact absurd hd.1 (by simp [Value.noNilMap])
      | vNil =>
        simp only [M.DeepUpdate, specDeepMerge]
        rw [show specMergeValue (M.find? m k) Value.vNil = Value.vNil from by
          cases hf : M.find? m k with
          | none => simp [specMergeValue]
          | some w => cases w <;> simp [specMergeValue]]
        exact ih rest _ hszrest hd.2 (hcompat' _ (by simp [Value.noNilMap]))
      | vStr s =>
        simp only [M.DeepUpdate, specDeepMerge]
        rw [show specMergeValue (M.find? m k) (Value.vStr s) = Value.vStr s from by
          cases hf : M.find? m k with
          | none => simp [specMergeValue]
          | some w => cases w <;> simp [specMergeValue]]
        exact ih rest _ hszrest hd.2 (hcompat' _ (by simp [Value.noNilMap]))
      | vMap dm =>
        cases hf : M.find? m k with
        | none =>
          simp only [M.DeepUpdate, hf, specDeepMerge]
          rw [show specMergeValue none (Value.vMap dm) = Value.vMap dm from by
            simp [specMergeValue]]
          exact ih rest _ hszrest hd.2 (hcompat' _ hd.1)
        | some w =>
          cases w with
          | vNilMap =>
            rcases hcompat k _ hf with hnone | hok
            · simp [M.find?] at hnone
            · exact absurd hok (by simp [Value.noNilMap])
          | vNil =>
            simp only [M.DeepUpdate, hf, specDeepMerge]
            rw [show specMergeValue (some Value.vNil) (Value.vMap dm) = Value.vMap dm from by
              simp [specMergeValue]]
            exact ih rest _ hszrest hd.2 (hcompat' _ hd.1)
          | vStr s =>
            simp only [M.DeepUpdate, hf, specDeepMerge]
            rw [show specMergeValue (some (Value.vStr s)) (Value.vMap dm) = Value.vMap dm from by
              simp [specMergeValue]]
            exact ih rest _ hszrest hd.2 (hcompat' _ hd.1)
          | vMap sub =>
            have hsub : M.noNilMap sub = true := by
              rcases hcompat k _ hf with hnone | hok
              · simp [M.find?] at hnone
              · exact hok
            have hdm : M.noNilMap dm = true := hd.1
            have hszdm : sizeOf dm < n := by
              have : sizeOf ((k, Value.vMap dm) :: rest) =
                  1 + (1 + sizeOf k + (1 + sizeOf dm)) + sizeOf rest := by simp
              omega
            have hrec := ih dm sub hszdm hdm
              (fun k' w hw => Or.inr (noNilMap_find sub k' w hsub hw))
            simp only [M.DeepUpdate, hf, hrec, exceptBind_ok, specDeepMerge]
            rw [show specMergeValue (some (Value.vMap sub)) (Value.vMap dm) =
                Value.vMap (specDeepMerge sub dm) from by simp [specMergeValue]]
            exact ih rest _ hszrest hd.2
              (hcompat' _ (specDeepMerge_noNilMap sub dm hsub hdm))

theorem deepUpdate_eq_spec (m d : M)
    (hd : M.noNilMap d = true)
    (hcompat : ∀ k w, M.find? m k = some w → M.find? d k = none ∨ w.noNilMap = true) :
    M.DeepUpdate m d = .ok (specDeepMerge m d) :=
  deepUpdate_eq_spec_aux (sizeOf d + 1) d m (by omega) hd hcompat

end mapstr

namespace metadata

open mapstr

/-- C5 (merge law): when `GenerateK8s` yields a native document and the
documents involved are free of typed-nil maps, `Generate` equals that
document wrapped under the `kubernetes` key and deep-merged (spec
semantics, standardized-schema leaves winning) with `GenerateECS`; for the
nil native document the same holds with the typed-nil wrapped value,
provided the ECS projection carries no `kubernetes` key of its own. -/
theorem c5_merge_law (p : pod) (obj : kubernetes.Resource)
    (opts : List FieldOptions) :
    (∀ out tr, p.GenerateK8s obj opts = .ok (some out, tr) →
      mapstr.M.noNilMap out = true →
      mapstr.M.noNilMap (p.GenerateECS obj) = true →
      p.Generate obj opts =
        .ok (specDeepMerge [("kubernetes", .vMap out)] (p.GenerateECS obj), tr)) ∧
    (∀ tr, p.GenerateK8s obj opts = .ok (none, tr) →
      mapstr.M.noNilMap (p.GenerateECS obj) = true →
      mapstr.M.find? (p.GenerateECS obj) "kubernetes" = none →
      p.Generate obj opts =
        .ok (specDeepMerge [("kubernetes", .vNilMap)] (p.GenerateECS obj), tr)) := by
  constructor
  · intro out tr hk hout hecs
    have hcompat : ∀ k w,
        mapstr.M.find? [("kubernetes", Value.vMap out)] k = some w →
        mapstr.M.find? (p.GenerateECS obj) k = none ∨ w.noNilMap = true := by
      intro k w hw
      simp only [mapstr.M.find?] at hw
      split at hw
      · cases hw
        exact Or.inr hout
      · cases hw
    simp only [pod.Generate, hk, exceptBind_ok, wrapK8s]
    rw [deepUpdate_eq_spec _ _ hecs hcompat]
    rfl
  · intro tr hk hecs hkub
    have hcompat : ∀ k w,
        mapstr.M.find? [("kubernetes", Value.vNilMap)] k = some w →
        mapstr.M.find? (p.GenerateECS obj) k = none ∨ w.noNilMap = true := by
      intro k w hw
      simp only [mapstr.M.find?] at hw
      split at hw
      · rename_i hkk
        cases hw
        left
        rw [← hkk]
        exact hkub
      · cases hw
    simp only [pod.Generate, hk, exceptBind_ok, wrapK8s]
    rw [deepUpdate_eq_spec _ _ hecs hcompat]
    rfl

/-- C4 (amended): for every non-Pod resource `GenerateK8s` returns nil
(no collaborator call, no panic), but `Generate` is NOT nil/empty:
provided the ECS projection is free of typed-nil maps and carries no
`kubernetes` key of its own, `Generate` returns the ECS fields deep-merged
over a document that still holds the `kubernetes` key with the nil native
document as its value. -/
theorem c4_not_applicable (p : pod) (kind : String) (opts : List FieldOptions) :
    pod.GenerateK8s p (.other kind) opts = .ok (none, []) ∧
    (mapstr.M.noNilMap (p.GenerateECS (.other kind)) = true →
      mapstr.M.find? (p.GenerateECS (.other kind)) "kubernetes" = none →
      p.Generate (.other kind) opts =
        .ok (specDeepMerge [("kubernetes", .vNilMap)]
          (p.GenerateECS (.other kind)), []) ∧
      mapstr.M.find?
        (specDeepMerge [("kubernetes", .vNilMap)] (p.GenerateECS (.other kind)))
        "kubernetes" = some .vNilMap) := by
  refine ⟨rfl, ?_⟩
  intro hecs hkub
  constructor
  · have hcompat : ∀ k w,
        mapstr.M.find? [("kubernetes", Value.vNilMap)] k = some w →
        mapstr.M.find? (p.GenerateECS (.other kind)) k = none ∨
          w.noNilMap = true := by
      intro k w hw
      simp only [mapstr.M.find?] at hw
      split at hw
      · rename_i hkk
        cases hw
        left
        rw [← hkk]
        exact hkub
      · cases hw
    simp only [pod.Generate, pod.GenerateK8s, exceptBind_ok, wrapK8s]
    rw [deepUpdate_eq_spec _ _ hecs hcompat]
    rfl
  · rw [specDeepMerge_find_absent _ _ _ hkub]
    simp [mapstr.M.find?]

end metadata

namespace metadata

open mapstr

/-- Witness for C4: at the concrete fixture, the amended claim holds. -/
theorem c4_witness :
    pod.Generate c4fix (.other "node") [] =
      .ok (specDeepMerge [("kubernetes", .vNilMap)]
        (c4fix.GenerateECS (.other "node")), []) ∧
    mapstr.M.find?
      (specDeepMerge [("kubernetes", .vNilMap)] (c4fix.GenerateECS (.other "node")))
      "kubernetes" = some .vNilMap :=
  (c4_not_applicable c4fix "node" []).2
    (by simp [pod.GenerateECS, c4fix, mapstr.M.noNilMap, mapstr.Value.noNilMap])
    rfl

/-- Witness for C5: at the concrete fixture, the merge law instance holds. -/
theorem c5_witness :
    pod.Generate c5fix (.pod po1) [] =
      .ok (specDeepMerge
        [("kubernetes", .vMap [("pod", .vMap [("name", .vStr "p1")]),
                               ("node", .vMap [("name", .vStr "n1")])])]
        (c5fix.GenerateECS (.pod po1)), []) :=
  (c5_merge_law c5fix (.pod po1) []).1
    [("pod", .vMap [("name", .vStr "p1")]), ("node", .vMap [("name", .vStr "n1")])]
    [] rfl
    (by simp [mapstr.M.noNilMap, mapstr.Value.noNilMap])
    (by simp [pod.GenerateECS, c5fix, mapstr.M.noNilMap, mapstr.Value.noNilMap])

/-- Witness for C6: at the concrete fixture (`replicaset.name = "rs1"`
resolving to `deployment.name = "dep1"`), the output carries
`deployment.name = "dep1"`. -/
theorem c6_witness :
    mapstr.M.GetValue
      [("replicaset", .vMap [("name", .vStr "rs1")]),
       ("deployment", .vMap [("name", .vStr "dep1")]),
       ("node", .vMap [("name", .vStr "n1")])] "deployment.name" =
      some (.vStr "dep1") :=
  (c6_deployment_hop c6wfix po1 []
      [("replicaset", .vMap [("name", .vStr "rs1")]),
       ("deployment", .vMap [("name", .vStr "dep1")]),
       ("node", .vMap [("name", .vStr "n1")])]
      [RCall.rs "rs1"]
      [("replicaset", .vMap [("name", .vStr "rs1")])]
      rfl rfl).1
    { GenerateFromName := fun _ _ => some [("deployment", .vMap [("name", .vStr "dep1")])] }
    "rs1" "dep1" [("deployment", .vMap [("name", .vStr "dep1")])]
    rfl rfl rfl rfl rfl (by decide) rfl rfl

/-- Witness for C7: at the concrete fixture, the output's `node` key is
the resolver document's raw `node` entry. -/
theorem c7_witness :
    mapstr.M.find?
      [("pod", .vMap [("name", .vStr "p1")]),
       ("node", .vMap [("name", .vStr "n1"), ("role", .vStr "worker")])] "node" =
      some ((mapstr.M.find?
        [("node", .vMap [("name", .vStr "n1"), ("role", .vStr "worker")])]
        "node").getD .vNil) :=
  (c7_node_hop c7wfix po1 []
      [("pod", .vMap [("name", .vStr "p1")]),
       ("node", .vMap [("name", .vStr "n1"), ("role", .vStr "worker")])]
      [RCall.node "n1"]
      [("pod", .vMap [("name", .vStr "p1")])]
      rfl rfl).1
    { GenerateFromName := fun _ _ =>
        some [("node", .vMap [("name", .vStr "n1"), ("role", .vStr "worker")])] }
    [("node", .vMap [("name", .vStr "n1"), ("role", .vStr "worker")])]
    rfl rfl

/-- Witness for C8: at the concrete fixture, `GenerateFromName` on a
stored Pod delegates to `GenerateK8s`. -/
theorem c8_witness :
    pod.GenerateFromName c8fix "pod1" [] = pod.GenerateK8s c8fix (.pod po1) [] :=
  (c8_generate_from_name c8fix "pod1" []).2.2.2
    (fun n => if n = "pod1" then some (.pod po1) else none) po1 rfl rfl

/-- Witness for C9: at the concrete fixture with `Status.PodIP =
"10.0.0.5"`, the output carries `pod.ip = "10.0.0.5"`. -/
theorem c9_witness :
    mapstr.M.GetValue
      [("pod", .vMap [("name", .vStr "p1"), ("ip", .vStr "10.0.0.5")]),
       ("node", .vMap [("name", .vStr "n1")])] "pod.ip" =
      some (.vStr "10.0.0.5") :=
  (c9_pod_ip c9wfix po9 []
      [("pod", .vMap [("name", .vStr "p1"), ("ip", .vStr "10.0.0.5")]),
       ("node", .vMap [("name", .vStr "n1")])]
      []
      [("pod", .vMap [("name", .vStr "p1")])]
      rfl rfl rfl
      (by
        intro w hw
        simp only [mapstr.M.find?, if_pos] at hw
        exact ⟨_, (Option.some.inj hw).symm⟩)).1
    (by decide)

end metadata
